import Mathlib

/-!
Verification of the image-compression tool in `main.py`.

The program recursively scans a folder, and for every JPEG/PNG file larger
than 19 MiB re-encodes it to fit under a target size.  The shallow embedding
below translates the program's pure logic into Lean:

* file contents are byte lists (`Content`); the external codec is an opaque
  capability carried inside `Image` (`encodeJPEG` returns the encoded bytes
  for a given quality, EXIF block and ICC profile; `encodePNG` is the single
  optimized PNG encode).  Either encoder may raise, modelled with
  `Except String`.
* EXIF blocks are association lists of (tag, value) pairs; `strip_orientation`
  mirrors `strip_orientation` in the source (set tag 0x0112 to 1 when present).
* floats: every float in the program is of the form `bytes / (1024*1024)`
  compared against the float `target_mb`.  Division of an integer below 2^53
  by 2^20 is exact in IEEE binary floating point and float comparison is
  exact, so these computations are faithfully modelled in `ℚ`.
* the `while lo <= hi` loop of `compress_jpeg` is embedded as the fuel
  recursion `jpegLoop`; `compress_jpeg` runs it with fuel `loopFuel lo hi`
  (the initial interval length), which is proved sufficient: the result is
  unchanged by any larger fuel (`jpegLoop_fuel_congr`), since every
  iteration strictly shrinks the interval.
* file writes are not performed on a global state; instead every operation
  returns the list of (path, bytes) writes it performs, and `applyWrites`
  folds such a list over a file system modelled as `Path → Content`.
  A write may also raise, modelled by the environment parameter
  `wex : FsPath → Content → Option String` giving the exception message, if any.
* `Path` keeps the parts of `pathlib.Path` the program uses: parent
  directory, stem and suffix; `Path.with_stem` replaces the stem.
-/

/-- Raw file bytes (one `Nat` per byte). -/
abbrev Content := List Nat

/-- An EXIF block: association list from tag id to value. -/
abbrev Exif := List (Nat × Nat)

/-- The parts of `pathlib.Path` used by the program. -/
structure FsPath where
  dir : String
  stem : String
  suffix : String
deriving DecidableEq

/-- `pathlib.Path.with_stem`: same directory and suffix, new stem. -/
def FsPath.with_stem (p : FsPath) (s : String) : FsPath :=
  { p with stem := s }

/-- A decoded image as the program sees it: the format tag, its EXIF data
(`img.getexif()`), its ICC profile (`img.info.get("icc_profile")`), and the
opaque codec operations bound to its pixel data. -/
structure Image where
  format : Option String
  exif : Exif
  icc : Option Content
  encodeJPEG : Int → Exif → Option Content → Except String Content
  encodePNG : Except String Content

/-- The CLI arguments that reach `process_one`. -/
structure Args where
  target_mb : ℚ
  min_quality : Int
  overwrite : Bool

/-- `file_size_mb`: size in MB of a file of `sizeBytes` bytes
(`st_size / (1024 * 1024)`). -/
def file_size_mb (sizeBytes : Nat) : ℚ :=
  (sizeBytes : ℚ) / (1024 * 1024)

/-- The EXIF orientation tag id `0x0112`. -/
def ORIENT : Nat := 0x0112

/-- `strip_orientation`: set EXIF Orientation = 1 (normal) when the tag is
present, mirroring `if ORIENT in exif: exif[ORIENT] = 1`.  The serialized
`exif.tobytes()` blob handed to the encoder is modelled by the tag list
itself. -/
def strip_orientation (exif : Exif) : Exif :=
  if (exif.lookup ORIENT).isSome then
    exif.map (fun kv => if kv.1 = ORIENT then (ORIENT, 1) else kv)
  else
    exif

/-- Fuel needed by `jpegLoop` on the interval `[lo, hi]`: its length. -/
def loopFuel (lo hi : Int) : Nat :=
  (hi + 1 - lo).toNat

/-- The `while lo <= hi` search of `compress_jpeg`: probe `q = (lo+hi)//2`,
encode at that quality with the orientation-stripped EXIF and the ICC
profile, and keep the encoding as current best when it meets the target
(`best` holds `(best_bytes, best_q)`).  Lean's `/` on `Int` rounds like
Python's `//` here because the divisor 2 is positive.  Fuel exhaustion
returns the current best, exactly like loop exit; `jpegLoop_fuel_congr`
shows the fuel `loopFuel lo hi` used by `compress_jpeg` is enough. -/
def jpegLoop (img : Image) (target_mb : ℚ) :
    Nat → Int → Int → Option (Content × Int) → Except String (Option (Content × Int))
  | 0, _, _, best => .ok best
  | fuel + 1, lo, hi, best =>
    if lo ≤ hi then
      let q := (lo + hi) / 2
      match img.encodeJPEG q (strip_orientation img.exif) img.icc with
      | .error e => .error e
      | .ok buf =>
        if file_size_mb buf.length ≤ target_mb then
          jpegLoop img target_mb fuel (q + 1) hi (some (buf, q))
        else
          jpegLoop img target_mb fuel lo (q - 1) best
    else
      .ok best

/-- `compress_jpeg`: binary search for the highest quality in `[min_q, max_q]`
whose encoding fits `target_mb`; on success write the best bytes to
`out_path` and report `(True, best_q, file_size_mb out_path)`, otherwise
report `(False, None, None)` without writing. -/
def compress_jpeg (wex : FsPath → Content → Option String) (img : Image)
    (out_path : FsPath) (target_mb : ℚ) (min_q max_q : Int) :
    Except String (Bool × Option Int × Option ℚ × List (FsPath × Content)) :=
  match jpegLoop img target_mb (loopFuel min_q max_q) min_q max_q none with
  | .error e => .error e
  | .ok none => .ok (false, none, none, [])
  | .ok (some (best_bytes, best_q)) =>
    match wex out_path best_bytes with
    | some e => .error e
    | none =>
      .ok (true, some best_q, some (file_size_mb best_bytes.length),
           [(out_path, best_bytes)])

/-- `compress_png`: one optimized encode written unconditionally to
`out_path`; success reported iff the resulting size meets the target. -/
def compress_png (wex : FsPath → Content → Option String) (img : Image)
    (out_path : FsPath) (target_mb : ℚ) :
    Except String (Bool × ℚ × List (FsPath × Content)) :=
  match img.encodePNG with
  | .error e => .error e
  | .ok bytes =>
    match wex out_path bytes with
    | some e => .error e
    | none =>
      .ok (decide (file_size_mb bytes.length ≤ target_mb),
           file_size_mb bytes.length, [(out_path, bytes)])

/-- The image handed to the compressors: the result of
`ImageOps.exif_transpose(img)` with the format tag cached before the
transposition written back (`fmt = img.format` before,
`img.format = fmt` after). -/
def prepared (transpose : Image → Image) (img0 : Image) : Image :=
  { transpose img0 with format := img0.format }

/-- Python rendering of an optional format tag inside an f-string. -/
def fmtName : Option String → String
  | some s => s
  | none => "None"

/-- Python rendering of the optional quality inside an f-string. -/
def optIntStr : Option Int → String
  | some n => toString n
  | none => "None"

/-- The output path: the original in overwrite mode, otherwise the sibling
with `"_compressed"` appended to the stem. -/
def outPath (path : FsPath) (overwrite : Bool) : FsPath :=
  if overwrite then path else path.with_stem (path.stem ++ "_compressed")

/-- The body of the `try:` block of `process_one` (everything that can raise
for a single file): decode, cache the format, transpose, restore the format,
then dispatch on the cached format tag. -/
def processBody (transpose : Image → Image)
    (wex : FsPath → Content → Option String) (decode : Except String Image)
    (path : FsPath) (args : Args) (orig_mb : ℚ) :
    Except String (String × ℚ × List (FsPath × Content)) :=
  match decode with
  | .error e => .error e
  | .ok img0 =>
    let fmt := img0.format
    let img := prepared transpose img0
    let out := outPath path args.overwrite
    if fmt = some "JPEG" then
      match compress_jpeg wex img out args.target_mb args.min_quality 100 with
      | .error e => .error e
      | .ok (ok, q, new_mb, ws) =>
        let label := if ok then "JPEG ✓ (q=" ++ optIntStr q ++ ")"
          else "JPEG ✗ (≥q" ++ toString args.min_quality ++ " still big)"
        -- Python `new_mb or orig_mb`: `None` and the float `0.0` are falsy.
        let reported := match new_mb with
          | none => orig_mb
          | some m => if m = 0 then orig_mb else m
        .ok (label, reported, ws)
    else if fmt = some "PNG" then
      match compress_png wex img out args.target_mb with
      | .error e => .error e
      | .ok (ok, new_mb, ws) =>
        .ok ((if ok then "PNG ✓" else "PNG ✗ (still big)"), new_mb, ws)
    else
      .ok (fmtName fmt ++ " unsupported", orig_mb, [])

/-- `process_one`: skip small files, otherwise run the body and turn any
exception into an `"error: <message>"` label with the original size. -/
def process_one (transpose : Image → Image)
    (wex : FsPath → Content → Option String) (origSize : Nat)
    (decode : Except String Image) (path : FsPath) (args : Args) :
    String × ℚ × List (FsPath × Content) :=
  let orig_mb := file_size_mb origSize
  if orig_mb ≤ 19 then
    ("skip (≤19 MB)", orig_mb, [])
  else
    match processBody transpose wex decode path args orig_mb with
    | .ok r => r
    | .error e => ("error: " ++ e, orig_mb, [])

/-- Replay a list of writes over a file system. -/
def applyWrites (fs : FsPath → Content) (ws : List (FsPath × Content)) :
    FsPath → Content :=
  ws.foldl (fun f w => fun p => if p = w.1 then w.2 else f p) fs

/-- One discovered file: its path, on-disk size, and decode result. -/
structure FileEntry where
  path : FsPath
  origSize : Nat
  decode : Except String Image

/-- The per-file loop of `cli`: every file is processed independently, in
order. -/
def runAll (transpose : Image → Image)
    (wex : FsPath → Content → Option String) (args : Args)
    (files : List FileEntry) : List (String × ℚ × List (FsPath × Content)) :=
  files.map (fun f => process_one transpose wex f.origSize f.decode f.path args)

/-- Modelled from the spec: brute-force verification order for the JPEG
search, "verify by brute-force scanning the same range".  `qualList lo hi`
is the ascending list of the integer qualities in `[lo, hi]`. -/
def qualList (min_q max_q : Int) : List Int :=
  (List.range (max_q + 1 - min_q).toNat).map (fun (i : Nat) => min_q + (i : Int))

/-- Modelled from the spec: the brute-force maximum quality in
`[min_q, max_q]` satisfying `f`, obtained by scanning the whole range and
keeping the last (= largest) hit. -/
def bruteForceBest (f : Int → Bool) (min_q max_q : Int) : Option Int :=
  (qualList min_q max_q).foldl (fun acc q => if f q then some q else acc) none

/-! Facts about the brute-force scan. -/

/-- An empty range scans nothing. -/
theorem qualList_empty (min_q max_q : Int) (h : max_q < min_q) :
    qualList min_q max_q = [] := by
  unfold qualList
  have : (max_q + 1 - min_q).toNat = 0 := by omega
  rw [this]
  rfl

/-- A nonempty range is the smaller range plus its top quality. -/
theorem qualList_snoc (min_q max_q : Int) (h : min_q ≤ max_q) :
    qualList min_q max_q = qualList min_q (max_q - 1) ++ [max_q] := by
  unfold qualList
  have h1 : (max_q + 1 - min_q).toNat = (max_q - min_q).toNat + 1 := by omega
  have h2 : (max_q - 1 + 1 - min_q).toNat = (max_q - min_q).toNat := by omega
  rw [h1, h2, List.range_succ, List.map_append]
  simp only [List.map_cons, List.map_nil]
  have h3 : min_q + ((max_q - min_q).toNat : Int) = max_q := by omega
  rw [h3]

/-- Brute force over an empty range finds nothing. -/
theorem bruteForceBest_empty (f : Int → Bool) (min_q max_q : Int)
    (h : max_q < min_q) : bruteForceBest f min_q max_q = none := by
  unfold bruteForceBest
  rw [qualList_empty min_q max_q h]
  rfl

/-- Recurrence: brute force over `[min_q, max_q]` checks `max_q` last. -/
theorem bruteForceBest_snoc (f : Int → Bool) (min_q max_q : Int)
    (h : min_q ≤ max_q) :
    bruteForceBest f min_q max_q =
      if f max_q then some max_q else bruteForceBest f min_q (max_q - 1) := by
  unfold bruteForceBest
  rw [qualList_snoc min_q max_q h, List.foldl_append]
  by_cases hf : f max_q <;> simp [hf]

/-- If nothing in the range satisfies `f`, brute force finds nothing. -/
theorem bruteForceBest_none (f : Int → Bool) :
    ∀ n (min_q max_q : Int), (max_q + 1 - min_q).toNat = n →
      (∀ r, min_q ≤ r → r ≤ max_q → f r = false) →
      bruteForceBest f min_q max_q = none := by
  intro n
  induction n with
  | zero =>
    intro min_q max_q hn _
    exact bruteForceBest_empty f min_q max_q (by omega)
  | succ n ih =>
    intro min_q max_q hn hfail
    have hle : min_q ≤ max_q := by omega
    rw [bruteForceBest_snoc f min_q max_q hle,
        if_neg (by rw [hfail max_q hle le_rfl]; exact Bool.false_ne_true)]
    exact ih min_q (max_q - 1) (by omega)
      (fun r h1 h2 => hfail r h1 (by omega))

/-- If some quality in the range satisfies `f`, brute force returns the
greatest such quality. -/
theorem bruteForceBest_found (f : Int → Bool) :
    ∀ n (min_q max_q : Int), (max_q + 1 - min_q).toNat = n →
      (∃ r, min_q ≤ r ∧ r ≤ max_q ∧ f r = true) →
      ∃ T, bruteForceBest f min_q max_q = some T ∧
        min_q ≤ T ∧ T ≤ max_q ∧ f T = true ∧
        ∀ r, T < r → r ≤ max_q → f r = false := by
  intro n
  induction n with
  | zero =>
    intro min_q max_q hn hex
    obtain ⟨r, h1, h2, _⟩ := hex
    omega
  | succ n ih =>
    intro min_q max_q hn hex
    have hle : min_q ≤ max_q := by omega
    by_cases hf : f max_q
    · refine ⟨max_q, ?_, hle, le_rfl, hf, fun r hr1 hr2 => by omega⟩
      rw [bruteForceBest_snoc f min_q max_q hle, if_pos hf]
    · obtain ⟨r, h1, h2, h3⟩ := hex
      have hrm : r ≤ max_q - 1 := by
        rcases eq_or_lt_of_le h2 with h | h
        · exact absurd (h ▸ h3) hf
        · omega
      obtain ⟨T, hT1, hT2, hT3, hT4, hT5⟩ :=
        ih min_q (max_q - 1) (by omega) ⟨r, h1, hrm, h3⟩
      refine ⟨T, ?_, hT2, by omega, hT4, ?_⟩
      · rw [bruteForceBest_snoc f min_q max_q hle, if_neg hf]
        exact hT1
      · intro s hs1 hs2
        rcases eq_or_lt_of_le hs2 with h | h
        · simpa [h] using (Bool.eq_false_iff.2 hf)
        · exact hT5 s hs1 (by omega)

/-! Facts about the JPEG binary-search loop. -/

/-- The loop returns the current best as soon as `lo > hi`, whatever the
fuel. -/
theorem jpegLoop_exit (img : Image) (target_mb : ℚ) (lo hi : Int)
    (best : Option (Content × Int)) (h : hi < lo) :
    ∀ fuel, jpegLoop img target_mb fuel lo hi best = .ok best := by
  intro fuel
  cases fuel with
  | zero => rfl
  | succ n =>
    simp only [jpegLoop]
    rw [if_neg (not_le.2 h)]

/-- Any two sufficient fuels give the same result: the loop genuinely
terminates within `loopFuel lo hi` iterations, because every probe strictly
shrinks the interval. -/
theorem jpegLoop_fuel_congr (img : Image) (target_mb : ℚ) :
    ∀ n (lo hi : Int) (best : Option (Content × Int)) (fuel1 fuel2 : Nat),
      loopFuel lo hi = n → n ≤ fuel1 → n ≤ fuel2 →
      jpegLoop img target_mb fuel1 lo hi best =
        jpegLoop img target_mb fuel2 lo hi best := by
  intro n
  induction n using Nat.strong_induction_on with
  | _ n ih =>
    intro lo hi best fuel1 fuel2 hn h1 h2
    by_cases hlh : lo ≤ hi
    · have hpos : 1 ≤ n := by unfold loopFuel at hn; omega
      obtain ⟨f1, rfl⟩ : ∃ m, fuel1 = m + 1 := ⟨fuel1 - 1, by omega⟩
      obtain ⟨f2, rfl⟩ : ∃ m, fuel2 = m + 1 := ⟨fuel2 - 1, by omega⟩
      simp only [jpegLoop]
      rw [if_pos hlh, if_pos hlh]
      cases hE : img.encodeJPEG ((lo + hi) / 2) (strip_orientation img.exif)
          img.icc with
      | error e => rfl
      | ok buf =>
        dsimp only
        by_cases hf : file_size_mb buf.length ≤ target_mb
        · rw [if_pos hf, if_pos hf]
          exact ih (loopFuel ((lo + hi) / 2 + 1) hi)
            (by unfold loopFuel at hn ⊢; omega) _ _ _ _ _ rfl
            (by unfold loopFuel at hn ⊢; omega)
            (by unfold loopFuel at hn ⊢; omega)
        · rw [if_neg hf, if_neg hf]
          exact ih (loopFuel lo ((lo + hi) / 2 - 1))
            (by unfold loopFuel at hn ⊢; omega) _ _ _ _ _ rfl
            (by unfold loopFuel at hn ⊢; omega)
            (by unfold loopFuel at hn ⊢; omega)
    · rw [jpegLoop_exit img target_mb lo hi best (not_le.1 hlh),
          jpegLoop_exit img target_mb lo hi best (not_le.1 hlh)]

/-- If every quality in `[lo, hi]` encodes (to `sz`) but none fits the
target, the loop keeps its incoming best, whatever the fuel. -/
theorem jpegLoop_nofit (img : Image) (target_mb : ℚ) (sz : Int → Content) :
    ∀ fuel (lo hi : Int) (best : Option (Content × Int)),
      (∀ r, lo ≤ r → r ≤ hi →
        img.encodeJPEG r (strip_orientation img.exif) img.icc = .ok (sz r)) →
      (∀ r, lo ≤ r → r ≤ hi → ¬ file_size_mb (sz r).length ≤ target_mb) →
      jpegLoop img target_mb fuel lo hi best = .ok best := by
  intro fuel
  induction fuel with
  | zero => intro lo hi best _ _; rfl
  | succ n ih =>
    intro lo hi best henc hfail
    by_cases hlh : lo ≤ hi
    · have hq1 : lo ≤ (lo + hi) / 2 := by omega
      have hq2 : (lo + hi) / 2 ≤ hi := by omega
      simp only [jpegLoop]
      rw [if_pos hlh, henc _ hq1 hq2]
      dsimp only
      rw [if_neg (hfail _ hq1 hq2)]
      exact ih lo ((lo + hi) / 2 - 1) best
        (fun r hr1 hr2 => henc r hr1 (by omega))
        (fun r hr1 hr2 => hfail r hr1 (by omega))
    · exact jpegLoop_exit img target_mb lo hi best (not_le.1 hlh) _

/-- Threshold correctness of the search.  Suppose every quality in `[L, U]`
encodes to `sz`, quality `T` fits, every quality in `(L, T]`... precisely:
everything from `L` up to `T` fits and everything above `T` (up to `U`)
does not.  Then from any loop state `(lo, hi, best)` respecting the
invariants below, the loop ends with best `(sz T, T)`. -/
theorem jpegLoop_found (img : Image) (target_mb : ℚ) (sz : Int → Content)
    (L U T : Int)
    (henc : ∀ r, L ≤ r → r ≤ U →
      img.encodeJPEG r (strip_orientation img.exif) img.icc = .ok (sz r))
    (hfitLe : ∀ r, L ≤ r → r ≤ T → file_size_mb (sz r).length ≤ target_mb)
    (hbigGt : ∀ r, T < r → r ≤ U → ¬ file_size_mb (sz r).length ≤ target_mb) :
    ∀ fuel (lo hi : Int) (best : Option (Content × Int)),
      loopFuel lo hi ≤ fuel → L ≤ lo → hi ≤ U → lo ≤ T + 1 → T ≤ hi →
      (lo = T + 1 → best = some (sz T, T)) →
      jpegLoop img target_mb fuel lo hi best = .ok (some (sz T, T)) := by
  intro fuel
  induction fuel with
  | zero =>
    intro lo hi best hfuel hL hU h1 h2 h3
    have hlo : lo = T + 1 := by unfold loopFuel at hfuel; omega
    rw [h3 hlo]
    rfl
  | succ n ih =>
    intro lo hi best hfuel hL hU h1 h2 h3
    by_cases hlh : lo ≤ hi
    · have hq1 : lo ≤ (lo + hi) / 2 := by omega
      have hq2 : (lo + hi) / 2 ≤ hi := by omega
      simp only [jpegLoop]
      rw [if_pos hlh, henc _ (by omega) (by omega)]
      dsimp only
      by_cases hf : file_size_mb (sz ((lo + hi) / 2)).length ≤ target_mb
      · rw [if_pos hf]
        have hqT : (lo + hi) / 2 ≤ T := by
          by_contra hgt
          exact hbigGt _ (by omega) (by omega) hf
        exact ih ((lo + hi) / 2 + 1) hi (some (sz ((lo + hi) / 2), (lo + hi) / 2))
          (by unfold loopFuel at hfuel ⊢; omega) (by omega) hU (by omega) h2
          (by intro hq; rw [show (lo + hi) / 2 = T by omega])
      · rw [if_neg hf]
        have hTq : T < (lo + hi) / 2 := by
          by_contra hle
          exact hf (hfitLe _ (by omega) (by omega))
        exact ih lo ((lo + hi) / 2 - 1) best
          (by unfold loopFuel at hfuel ⊢; omega) hL (by omega) h1 (by omega) h3
    · have hlo : lo = T + 1 := by omega
      rw [h3 hlo]
      exact jpegLoop_exit img target_mb lo hi _ (not_le.1 hlh) _

/-! Facts about EXIF handling. -/

/-- After `strip_orientation`, a present orientation tag reads as the
identity value 1. -/
theorem strip_orientation_lookup (exif : Exif)
    (h : (exif.lookup ORIENT).isSome = true) :
    (strip_orientation exif).lookup ORIENT = some 1 := by
  unfold strip_orientation
  rw [if_pos h]
  induction exif with
  | nil => simp [List.lookup] at h
  | cons kv t ih =>
    obtain ⟨k, v⟩ := kv
    by_cases hk : k = ORIENT
    · subst hk
      simp [List.lookup]
    · have hne : (ORIENT == k) = false := by
        simp [BEq.beq]
        omega
      simp only [List.map_cons]
      have hh : (if (k, v).1 = ORIENT then (ORIENT, 1) else (k, v)) = (k, v) :=
        if_neg hk
      rw [hh]
      simp only [List.lookup, hne] at h ⊢
      exact ih h

/-! Characterizations of the compressor results. -/

/-- A JPEG search that never records a best returns failure and performs no
write. -/
theorem compress_jpeg_of_loop_none (wex : FsPath → Content → Option String)
    (img : Image) (out_path : FsPath) (target_mb : ℚ) (min_q max_q : Int)
    (hL : jpegLoop img target_mb (loopFuel min_q max_q) min_q max_q none =
      .ok none) :
    compress_jpeg wex img out_path target_mb min_q max_q =
      .ok (false, none, none, []) := by
  unfold compress_jpeg
  rw [hL]

/-- A JPEG search ending with best `(bytes, q)` writes exactly those bytes to
`out_path` and reports their size. -/
theorem compress_jpeg_of_loop_some (wex : FsPath → Content → Option String)
    (img : Image) (out_path : FsPath) (target_mb : ℚ) (min_q max_q : Int)
    (bytes : Content) (q : Int)
    (hL : jpegLoop img target_mb (loopFuel min_q max_q) min_q max_q none =
      .ok (some (bytes, q)))
    (hw : wex out_path bytes = none) :
    compress_jpeg wex img out_path target_mb min_q max_q =
      .ok (true, some q, some (file_size_mb bytes.length),
           [(out_path, bytes)]) := by
  unfold compress_jpeg
  rw [hL]
  dsimp only
  rw [hw]

/-- A failing write surfaces as the exception from `write_bytes`. -/
theorem compress_jpeg_of_write_err (wex : FsPath → Content → Option String)
    (img : Image) (out_path : FsPath) (target_mb : ℚ) (min_q max_q : Int)
    (bytes : Content) (q : Int) (e : String)
    (hL : jpegLoop img target_mb (loopFuel min_q max_q) min_q max_q none =
      .ok (some (bytes, q)))
    (hw : wex out_path bytes = some e) :
    compress_jpeg wex img out_path target_mb min_q max_q = .error e := by
  unfold compress_jpeg
  rw [hL]
  dsimp only
  rw [hw]

/-- A successful PNG encode with a successful write always writes, and
reports success iff the result fits. -/
theorem compress_png_eq (wex : FsPath → Content → Option String) (img : Image)
    (out_path : FsPath) (target_mb : ℚ) (bytes : Content)
    (hE : img.encodePNG = .ok bytes) (hw : wex out_path bytes = none) :
    compress_png wex img out_path target_mb =
      .ok (decide (file_size_mb bytes.length ≤ target_mb),
           file_size_mb bytes.length, [(out_path, bytes)]) := by
  unfold compress_png
  rw [hE]
  dsimp only
  rw [hw]

/-! Unfolding lemmas for `process_one`. -/

/-- Small files short-circuit to the skip label. -/
theorem process_one_skip (transpose : Image → Image)
    (wex : FsPath → Content → Option String) (origSize : Nat)
    (decode : Except String Image) (path : FsPath) (args : Args)
    (h : file_size_mb origSize ≤ 19) :
    process_one transpose wex origSize decode path args =
      ("skip (≤19 MB)", file_size_mb origSize, []) := by
  unfold process_one
  rw [if_pos h]

/-- A raised exception in the body becomes an error label with the original
size. -/
theorem process_one_err (transpose : Image → Image)
    (wex : FsPath → Content → Option String) (origSize : Nat)
    (decode : Except String Image) (path : FsPath) (args : Args) (e : String)
    (hbig : ¬ file_size_mb origSize ≤ 19)
    (herr : processBody transpose wex decode path args (file_size_mb origSize) =
      .error e) :
    process_one transpose wex origSize decode path args =
      ("error: " ++ e, file_size_mb origSize, []) := by
  unfold process_one
  rw [if_neg hbig, herr]

/-- The JPEG dispatch of `process_one`, given the compressor's result. -/
theorem process_one_jpeg (transpose : Image → Image)
    (wex : FsPath → Content → Option String) (origSize : Nat) (img0 : Image)
    (path : FsPath) (args : Args)
    (R : Bool × Option Int × Option ℚ × List (FsPath × Content))
    (hbig : ¬ file_size_mb origSize ≤ 19)
    (hfmt : img0.format = some "JPEG")
    (hC : compress_jpeg wex (prepared transpose img0)
      (outPath path args.overwrite) args.target_mb args.min_quality 100 =
      .ok R) :
    process_one transpose wex origSize (.ok img0) path args =
      ((if R.1 then "JPEG ✓ (q=" ++ optIntStr R.2.1 ++ ")"
        else "JPEG ✗ (≥q" ++ toString args.min_quality ++ " still big)"),
       (match R.2.2.1 with
        | none => file_size_mb origSize
        | some v => if v = 0 then file_size_mb origSize else v),
       R.2.2.2) := by
  unfold process_one
  rw [if_neg hbig]
  simp only [processBody]
  rw [hfmt, if_pos rfl, hC]

/-- The PNG dispatch of `process_one`, given the compressor's result. -/
theorem process_one_png (transpose : Image → Image)
    (wex : FsPath → Content → Option String) (origSize : Nat) (img0 : Image)
    (path : FsPath) (args : Args) (R : Bool × ℚ × List (FsPath × Content))
    (hbig : ¬ file_size_mb origSize ≤ 19)
    (hfmt : img0.format = some "PNG")
    (hC : compress_png wex (prepared transpose img0)
      (outPath path args.overwrite) args.target_mb = .ok R) :
    process_one transpose wex origSize (.ok img0) path args =
      ((if R.1 then "PNG ✓" else "PNG ✗ (still big)"), R.2.1, R.2.2) := by
  unfold process_one
  rw [if_neg hbig]
  simp only [processBody]
  rw [hfmt, if_neg (by decide), if_pos rfl, hC]

/-! Facts about write replay. -/

/-- Writes that all target `out` leave any other path unchanged. -/
theorem applyWrites_other (out : FsPath) :
    ∀ (ws : List (FsPath × Content)) (fs : FsPath → Content) (p : FsPath),
      (∀ w ∈ ws, w.1 = out) → p ≠ out → applyWrites fs ws p = fs p := by
  intro ws
  induction ws with
  | nil => intro fs p _ _; rfl
  | cons w t ih =>
    intro fs p hall hp
    have hw : w.1 = out := hall w (List.mem_cons_self w t)
    have : applyWrites fs (w :: t) p =
        applyWrites (fun p' => if p' = w.1 then w.2 else fs p') t p := rfl
    rw [this, ih _ p (fun x hx => hall x (List.mem_cons_of_mem w hx)) hp]
    rw [if_neg (by rw [hw]; exact hp)]

/-- Replaying a single write to `p` stores exactly those bytes at `p`. -/
theorem applyWrites_single (fs : FsPath → Content) (p : FsPath) (c : Content) :
    applyWrites fs [(p, c)] p = c := by
  unfold applyWrites
  simp

/-- In non-overwrite mode the output path differs from the original. -/
theorem outPath_ne (path : FsPath) : outPath path false ≠ path := by
  unfold outPath FsPath.with_stem
  intro h
  rw [if_neg Bool.false_ne_true] at h
  have hstem := congrArg FsPath.stem h
  simp only at hstem
  have hlen := congrArg String.length hstem
  rw [String.length_append] at hlen
  have : String.length "_compressed" = 11 := by decide
  omega

/-- Every write performed by `compress_jpeg` targets `out_path`. -/
theorem compress_jpeg_writes (wex : FsPath → Content → Option String)
    (img : Image) (out_path : FsPath) (target_mb : ℚ) (min_q max_q : Int)
    (R : Bool × Option Int × Option ℚ × List (FsPath × Content))
    (h : compress_jpeg wex img out_path target_mb min_q max_q = .ok R) :
    ∀ w ∈ R.2.2.2, w.1 = out_path := by
  unfold compress_jpeg at h
  cases hL : jpegLoop img target_mb (loopFuel min_q max_q) min_q max_q none with
  | error e => rw [hL] at h; simp at h
  | ok b =>
    rw [hL] at h
    cases b with
    | none =>
      dsimp only at h
      injection h with h'
      subst h'
      intro w hw
      simp at hw
    | some bq =>
      obtain ⟨bytes, q⟩ := bq
      dsimp only at h
      cases hw : wex out_path bytes with
      | some e => rw [hw] at h; simp at h
      | none =>
        rw [hw] at h
        injection h with h'
        subst h'
        intro w hmem
        simp only [List.mem_singleton] at hmem
        rw [hmem]

/-- Every write performed by `compress_png` targets `out_path`. -/
theorem compress_png_writes (wex : FsPath → Content → Option String)
    (img : Image) (out_path : FsPath) (target_mb : ℚ)
    (R : Bool × ℚ × List (FsPath × Content))
    (h : compress_png wex img out_path target_mb = .ok R) :
    ∀ w ∈ R.2.2, w.1 = out_path := by
  unfold compress_png at h
  cases hE : img.encodePNG with
  | error e => rw [hE] at h; simp at h
  | ok bytes =>
    rw [hE] at h
    dsimp only at h
    cases hw : wex out_path bytes with
    | some e => rw [hw] at h; simp at h
    | none =>
      rw [hw] at h
      injection h with h'
      subst h'
      intro w hmem
      simp only [List.mem_singleton] at hmem
      rw [hmem]

/-- Every write performed by the body targets the chosen output path. -/
theorem processBody_writes (transpose : Image → Image)
    (wex : FsPath → Content → Option String) (decode : Except String Image)
    (path : FsPath) (args : Args) (m : ℚ)
    (R : String × ℚ × List (FsPath × Content))
    (h : processBody transpose wex decode path args m = .ok R) :
    ∀ w ∈ R.2.2, w.1 = outPath path args.overwrite := by
  unfold processBody at h
  cases decode with
  | error e => simp at h
  | ok img0 =>
    dsimp only at h
    by_cases hJ : img0.format = some "JPEG"
    · rw [if_pos hJ] at h
      cases hC : compress_jpeg wex (prepared transpose img0)
          (outPath path args.overwrite) args.target_mb args.min_quality
          100 with
      | error e => rw [hC] at h; simp at h
      | ok S =>
        rw [hC] at h
        obtain ⟨ok, q, new_mb, ws⟩ := S
        dsimp only at h
        injection h with h'
        subst h'
        exact compress_jpeg_writes wex (prepared transpose img0)
          (outPath path args.overwrite) args.target_mb args.min_quality 100
          (ok, q, new_mb, ws) hC
    · rw [if_neg hJ] at h
      by_cases hP : img0.format = some "PNG"
      · rw [if_pos hP] at h
        cases hC : compress_png wex (prepared transpose img0)
            (outPath path args.overwrite) args.target_mb with
        | error e => rw [hC] at h; simp at h
        | ok S =>
          rw [hC] at h
          obtain ⟨ok, new_mb, ws⟩ := S
          dsimp only at h
          injection h with h'
          subst h'
          exact compress_png_writes wex (prepared transpose img0)
            (outPath path args.overwrite) args.target_mb (ok, new_mb, ws) hC
      · rw [if_neg hP] at h
        injection h with h'
        subst h'
        intro w hw
        simp at hw

/-- Every write performed by `process_one` targets the chosen output path. -/
theorem process_one_writes (transpose : Image → Image)
    (wex : FsPath → Content → Option String) (origSize : Nat)
    (decode : Except String Image) (path : FsPath) (args : Args) :
    ∀ w ∈ (process_one transpose wex origSize decode path args).2.2,
      w.1 = outPath path args.overwrite := by
  unfold process_one
  by_cases hs : file_size_mb origSize ≤ 19
  · rw [if_pos hs]
    intro w hw
    simp at hw
  · rw [if_neg hs]
    cases hB : processBody transpose wex decode path args
        (file_size_mb origSize) with
    | error e =>
      dsimp only
      intro w hw
      simp at hw
    | ok R =>
      dsimp only
      exact processBody_writes transpose wex decode path args
        (file_size_mb origSize) R hB

/-! Concrete instances used by the witnesses and counterexamples below. -/

/-- A write environment that never raises. -/
def wexNone : FsPath → Content → Option String := fun _ _ => none

/-- A sample path. -/
def samplePath : FsPath := ⟨"imgs", "photo", ".jpg"⟩

/-- Sample arguments: 3-byte target, minimum quality 85, sibling output. -/
def sampleArgs : Args := ⟨3 / 1048576, 85, false⟩

/-- Sample arguments in overwrite mode. -/
def sampleArgsOv : Args := ⟨3 / 1048576, 85, true⟩

/-- Stub encoded sizes, monotone: 1 byte up to quality 90, 5 bytes above. -/
def szMono : Int → Content := fun r => if r ≤ 90 then [0] else [0, 0, 0, 0, 0]

/-- A JPEG image whose encoder follows `szMono`. -/
def imgMono : Image :=
  { format := some "JPEG", exif := [(ORIENT, 6)], icc := none,
    encodeJPEG := fun r _ _ => .ok (szMono r), encodePNG := .ok [] }

/-- Stub encoded sizes, not monotone: only qualities 86 and 100 are small. -/
def szTwo : Int → Content :=
  fun r => if r = 86 ∨ r = 100 then [0] else [0, 0, 0, 0, 0]

/-- A JPEG image whose encoder follows `szTwo`. -/
def imgTwo : Image :=
  { format := some "JPEG", exif := [], icc := none,
    encodeJPEG := fun r _ _ => .ok (szTwo r), encodePNG := .ok [] }

/-- A JPEG image every encode of which is 5 bytes: a 3-byte target is
unreachable. -/
def imgStub : Image :=
  { format := some "JPEG", exif := [], icc := none,
    encodeJPEG := fun _ _ _ => .ok [0, 0, 0, 0, 0],
    encodePNG := .ok [0, 0, 0, 0, 0] }

/-- A PNG image whose single encode is 5 bytes. -/
def imgPngStub : Image :=
  { format := some "PNG", exif := [], icc := none,
    encodeJPEG := fun _ _ _ => .ok [],
    encodePNG := .ok [0, 0, 0, 0, 0] }

/-- The identity transposition (image already upright). -/
def idTranspose : Image → Image := fun i => i

/-- A transposition that clears the format tag, as `exif_transpose` can. -/
def clearTranspose : Image → Image := fun i => { i with format := none }

/-- Soundness of the search with no assumption on the codec: any best the
loop returns was recorded from a probe inside `[L, U]` whose encoding met
the target. -/
theorem jpegLoop_sound (img : Image) (target_mb : ℚ) (L U : Int) :
    ∀ fuel (lo hi : Int) (best r : Option (Content × Int)),
      L ≤ lo → hi ≤ U →
      (∀ c b, best = some (c, b) → L ≤ b ∧ b ≤ U ∧
        file_size_mb c.length ≤ target_mb ∧
        img.encodeJPEG b (strip_orientation img.exif) img.icc = .ok c) →
      jpegLoop img target_mb fuel lo hi best = .ok r →
      ∀ c b, r = some (c, b) → L ≤ b ∧ b ≤ U ∧
        file_size_mb c.length ≤ target_mb ∧
        img.encodeJPEG b (strip_orientation img.exif) img.icc = .ok c := by
  intro fuel
  induction fuel with
  | zero =>
    intro lo hi best r _ _ hbest hrun
    simp only [jpegLoop] at hrun
    injection hrun with h'
    subst h'
    exact hbest
  | succ n ih =>
    intro lo hi best r hL hU hbest hrun
    by_cases hlh : lo ≤ hi
    · simp only [jpegLoop] at hrun
      rw [if_pos hlh] at hrun
      cases hE : img.encodeJPEG ((lo + hi) / 2) (strip_orientation img.exif)
          img.icc with
      | error e => rw [hE] at hrun; simp at hrun
      | ok buf =>
        rw [hE] at hrun
        dsimp only at hrun
        by_cases hf : file_size_mb buf.length ≤ target_mb
        · rw [if_pos hf] at hrun
          refine ih ((lo + hi) / 2 + 1) hi (some (buf, (lo + hi) / 2)) r
            (by omega) hU ?_ hrun
          intro c b hsome
          injection hsome with h'
          injection h' with hc hb
          subst hc
          subst hb
          exact ⟨by omega, by omega, hf, hE⟩
        · rw [if_neg hf] at hrun
          exact ih lo ((lo + hi) / 2 - 1) best r hL (by omega) hbest hrun
    · rw [jpegLoop_exit img target_mb lo hi best (not_le.1 hlh) (n + 1)]
        at hrun
      injection hrun with h'
      subst h'
      exact hbest

/-! Claim theorems. -/

/-- C1 (amended): whenever `compress_jpeg` returns success, unconditionally
the chosen quality lies in `[min_q, 100]` and the reported size is the size
of the chosen encoding — the bytes written to `out_path` — and meets the
target; moreover, whenever the codec acts as a total size function on the
range whose fit predicate is monotone in quality (any quality below a
fitting quality also fits — true of a real JPEG encoder, not of an
arbitrary opaque codec), the chosen quality is exactly the brute-force
maximum of the range. -/
theorem C1_jpeg_search_max (wex : FsPath → Content → Option String)
    (img : Image) (out_path : FsPath) (target_mb : ℚ) (min_q : Int)
    (q : Int) (s : ℚ) (ws : List (FsPath × Content))
    (hok : compress_jpeg wex img out_path target_mb min_q 100 =
      .ok (true, some q, some s, ws)) :
    min_q ≤ q ∧ q ≤ 100 ∧ s ≤ target_mb ∧
    (∃ bytes : Content,
      img.encodeJPEG q (strip_orientation img.exif) img.icc = .ok bytes ∧
      s = file_size_mb bytes.length ∧ ws = [(out_path, bytes)]) ∧
    ∀ sz : Int → Content,
      (∀ r, min_q ≤ r → r ≤ 100 →
        img.encodeJPEG r (strip_orientation img.exif) img.icc = .ok (sz r)) →
      (∀ r r' : Int, r ≤ r' →
        file_size_mb (sz r').length ≤ target_mb →
        file_size_mb (sz r).length ≤ target_mb) →
      some q = bruteForceBest
        (fun r => decide (file_size_mb (sz r).length ≤ target_mb))
        min_q 100 := by
  unfold compress_jpeg at hok
  cases hL : jpegLoop img target_mb (loopFuel min_q 100) min_q 100 none with
  | error e => rw [hL] at hok; simp at hok
  | ok b =>
    rw [hL] at hok
    cases b with
    | none =>
      dsimp only at hok
      simp at hok
    | some bq =>
      obtain ⟨bytes, qq⟩ := bq
      dsimp only at hok
      cases hw : wex out_path bytes with
      | some e => rw [hw] at hok; simp at hok
      | none =>
        rw [hw] at hok
        simp only [Except.ok.injEq, Prod.mk.injEq, Option.some.injEq] at hok
        obtain ⟨-, hqq, hs, hws⟩ := hok
        obtain ⟨h1, h2, h3, h4⟩ := jpegLoop_sound img target_mb min_q 100
          (loopFuel min_q 100) min_q 100 none (some (bytes, qq)) le_rfl le_rfl
          (fun c b hsome => Option.noConfusion hsome) hL bytes qq rfl
        refine ⟨hqq ▸ h1, hqq ▸ h2, ?_, ⟨bytes, hqq ▸ h4, hs.symm, hws.symm⟩,
          ?_⟩
        · rw [← hs]
          exact h3
        · intro sz hsz hmono
          have h1q : min_q ≤ q := hqq ▸ h1
          have h2q : q ≤ 100 := hqq ▸ h2
          have h4q : img.encodeJPEG q (strip_orientation img.exif) img.icc =
              .ok bytes := hqq ▸ h4
          have hbs : bytes = sz q :=
            Except.ok.inj (h4q.symm.trans (hsz q h1q h2q))
          have hfitq : file_size_mb (sz q).length ≤ target_mb := by
            rw [← hbs]
            exact h3
          obtain ⟨T, hTbb, hTlo, hThi, hTfit, hTmax⟩ :=
            bruteForceBest_found
              (fun r => decide (file_size_mb (sz r).length ≤ target_mb))
              ((100 : Int) + 1 - min_q).toNat min_q 100 rfl
              ⟨q, h1q, h2q, decide_eq_true hfitq⟩
          have hTfit' : file_size_mb (sz T).length ≤ target_mb :=
            of_decide_eq_true hTfit
          have hTmax' : ∀ r, T < r → r ≤ 100 →
              ¬ file_size_mb (sz r).length ≤ target_mb :=
            fun r hr1 hr2 => of_decide_eq_false (hTmax r hr1 hr2)
          have hloop := jpegLoop_found img target_mb sz min_q 100 T hsz
            (fun r _ hr => hmono r T hr hTfit') hTmax'
            (loopFuel min_q 100) min_q 100 none le_rfl le_rfl le_rfl
            (by omega) hThi (fun hcontra => absurd hcontra (by omega))
          have heq := hloop.symm.trans hL
          rw [hqq, hbs] at heq
          simp only [Except.ok.injEq, Option.some.injEq, Prod.mk.injEq]
            at heq
          rw [hTbb, heq.2]

/-- C1 counterexample: with the opaque codec `imgTwo` (fit at qualities 86
and 100 only) the search succeeds with quality 86, although quality 100 in
the same range also meets the target, so the chosen quality is not the
brute-force maximum of `[85, 100]`. -/
theorem C1_jpeg_search_max_cex :
    compress_jpeg wexNone imgTwo samplePath (3 / 1048576) 85 100 =
      .ok (true, some 86, some (file_size_mb 1), [(samplePath, [0])]) ∧
    file_size_mb (szTwo 100).length ≤ 3 / 1048576 ∧
    bruteForceBest
      (fun r => decide (file_size_mb (szTwo r).length ≤ 3 / 1048576))
      85 100 = some 100 ∧
    (86 : Int) ≠ 100 := by
  refine ⟨?_, ?_, ?_, by decide⟩
  · with_unfolding_all rfl
  · with_unfolding_all decide
  · with_unfolding_all rfl

/-- C1 witness: the theorem applied to the monotone stub codec `imgMono`,
whose encodings fit the 3-byte target exactly up to quality 90: the
unconditional bound clauses hold and the monotone clause yields the
brute-force maximum 90. -/
theorem C1_jpeg_search_max_w :
    ((85 : Int) ≤ 90 ∧ (90 : Int) ≤ 100 ∧
      file_size_mb 1 ≤ 3 / 1048576) ∧
    some (90 : Int) = bruteForceBest
      (fun r => decide (file_size_mb (szMono r).length ≤ 3 / 1048576))
      85 100 := by
  have h := C1_jpeg_search_max wexNone imgMono samplePath (3 / 1048576) 85 90
    (file_size_mb 1) [(samplePath, [0])] (by with_unfolding_all rfl)
  refine ⟨⟨h.1, h.2.1, h.2.2.1⟩, ?_⟩
  apply h.2.2.2.2 szMono (fun r _ _ => rfl)
  intro r r' hle hfit
  by_cases h9 : r' ≤ 90
  · have h8 : r ≤ 90 := le_trans hle h9
    simp only [szMono, if_pos h8]
    with_unfolding_all decide
  · simp only [szMono, if_neg h9] at hfit
    exact absurd hfit (by with_unfolding_all decide)

/-- C2 (amended): when no quality in `[min_quality, 100]` meets the target,
`compress_jpeg` reports failure carrying no size at all, and the size
`process_one` reports for the file is the original file size (the
`new_mb or orig_mb` fallback), not the size of the minimum-quality
attempt. -/
theorem C2_fail_reports_orig (transpose : Image → Image)
    (wex : FsPath → Content → Option String) (origSize : Nat) (img0 : Image)
    (path : FsPath) (args : Args) (sz : Int → Content)
    (hbig : ¬ file_size_mb origSize ≤ 19)
    (hfmt : img0.format = some "JPEG")
    (hsz : ∀ r, args.min_quality ≤ r → r ≤ 100 →
      (prepared transpose img0).encodeJPEG r
        (strip_orientation (prepared transpose img0).exif)
        (prepared transpose img0).icc = .ok (sz r))
    (hnofit : ∀ r, args.min_quality ≤ r → r ≤ 100 →
      ¬ file_size_mb (sz r).length ≤ args.target_mb) :
    compress_jpeg wex (prepared transpose img0) (outPath path args.overwrite)
      args.target_mb args.min_quality 100 = .ok (false, none, none, []) ∧
    process_one transpose wex origSize (.ok img0) path args =
      ("JPEG ✗ (≥q" ++ toString args.min_quality ++ " still big)",
       file_size_mb origSize, []) := by
  have hloop := jpegLoop_nofit (prepared transpose img0) args.target_mb sz
    (loopFuel args.min_quality 100) args.min_quality 100 none hsz hnofit
  have hC := compress_jpeg_of_loop_none wex (prepared transpose img0)
    (outPath path args.overwrite) args.target_mb args.min_quality 100 hloop
  refine ⟨hC, ?_⟩
  rw [process_one_jpeg transpose wex origSize img0 path args
    (false, none, none, []) hbig hfmt hC]
  rfl

/-- C2 counterexample: with the stub codec `imgStub` (every encode 5 bytes)
and a 3-byte target, the JPEG search fails on a file of 19922945 bytes and
`process_one` reports the original size 19922945/2^20 MB, which differs from
the size of the minimum-quality attempt (5 bytes). -/
theorem C2_fail_reports_orig_cex :
    process_one idTranspose wexNone 19922945 (.ok imgStub) samplePath
      sampleArgs =
      ("JPEG ✗ (≥q" ++ toString (85 : Int) ++ " still big)",
       file_size_mb 19922945, []) ∧
    imgStub.encodeJPEG 85 (strip_orientation imgStub.exif) imgStub.icc =
      .ok [0, 0, 0, 0, 0] ∧
    file_size_mb 19922945 ≠ file_size_mb (List.length [0, 0, 0, 0, 0]) := by
  refine ⟨?_, rfl, ?_⟩
  · with_unfolding_all rfl
  · with_unfolding_all decide

/-- C2 witness: the amended theorem applied to the stub codec `imgStub` on a
file one byte above the 19 MiB threshold. -/
theorem C2_fail_reports_orig_w :
    compress_jpeg wexNone (prepared idTranspose imgStub)
      (outPath samplePath sampleArgs.overwrite) sampleArgs.target_mb
      sampleArgs.min_quality 100 = .ok (false, none, none, []) ∧
    process_one idTranspose wexNone 19922945 (.ok imgStub) samplePath
      sampleArgs =
      ("JPEG ✗ (≥q" ++ toString sampleArgs.min_quality ++ " still big)",
       file_size_mb 19922945, []) :=
  C2_fail_reports_orig idTranspose wexNone 19922945 imgStub samplePath
    sampleArgs (fun _ => [0, 0, 0, 0, 0])
    (by with_unfolding_all decide)
    rfl
    (fun r _ _ => rfl)
    (fun r _ _ =>
      (by with_unfolding_all decide :
        ¬ file_size_mb (List.length ([0, 0, 0, 0, 0] : Content)) ≤
          sampleArgs.target_mb))

/-- C3: if the search never meets the target (best stays `None`),
`compress_jpeg` performs no write at all and `process_one` produces an empty
write list, so in overwrite mode replaying the run leaves the original
file's bytes unchanged. -/
theorem C3_no_write_on_total_fail (transpose : Image → Image)
    (wex : FsPath → Content → Option String) (origSize : Nat) (img0 : Image)
    (path : FsPath) (args : Args)
    (hbig : ¬ file_size_mb origSize ≤ 19)
    (hfmt : img0.format = some "JPEG")
    (_hov : args.overwrite = true)
    (hloop : jpegLoop (prepared transpose img0) args.target_mb
      (loopFuel args.min_quality 100) args.min_quality 100 none = .ok none) :
    compress_jpeg wex (prepared transpose img0) (outPath path args.overwrite)
      args.target_mb args.min_quality 100 = .ok (false, none, none, []) ∧
    process_one transpose wex origSize (.ok img0) path args =
      ("JPEG ✗ (≥q" ++ toString args.min_quality ++ " still big)",
       file_size_mb origSize, []) ∧
    ∀ fs : FsPath → Content,
      applyWrites fs
        (process_one transpose wex origSize (.ok img0) path args).2.2 path =
        fs path := by
  have hC := compress_jpeg_of_loop_none wex (prepared transpose img0)
    (outPath path args.overwrite) args.target_mb args.min_quality 100 hloop
  have hP := process_one_jpeg transpose wex origSize img0 path args
    (false, none, none, []) hbig hfmt hC
  refine ⟨hC, hP, ?_⟩
  intro fs
  rw [hP]
  rfl

/-- C3 witness: a concrete all-failing search in overwrite mode; replaying
the produced writes leaves the content stored at the original path
untouched. -/
theorem C3_no_write_on_total_fail_w :
    applyWrites (fun _ => [7, 7, 7])
      (process_one idTranspose wexNone 19922945 (.ok imgStub) samplePath
        sampleArgsOv).2.2 samplePath =
      (fun (_ : FsPath) => [7, 7, 7]) samplePath :=
  (C3_no_write_on_total_fail idTranspose wexNone 19922945 imgStub samplePath
    sampleArgsOv (by with_unfolding_all decide) rfl rfl
    (by with_unfolding_all rfl)).2.2 (fun _ => [7, 7, 7])

/-- C4: a file of at most 19 MiB (19·1024·1024 bytes) is skipped: the label
is the skip label, the reported size is the original size, no write happens,
and neither the decode result nor the target size is consulted. -/
theorem C4_small_files_skipped (transpose : Image → Image)
    (wex : FsPath → Content → Option String) (origSize : Nat)
    (decode : Except String Image) (path : FsPath) (args : Args)
    (h : origSize ≤ 19 * 1048576) :
    process_one transpose wex origSize decode path args =
      ("skip (≤19 MB)", file_size_mb origSize, []) := by
  apply process_one_skip
  have h' : (origSize : ℚ) ≤ 19 * (1024 * 1024) := by
    have h2 := (Nat.cast_le (α := ℚ)).2 h
    push_cast at h2
    linarith
  unfold file_size_mb
  rw [div_le_iff₀ (by norm_num : (0 : ℚ) < 1024 * 1024)]
  linarith

/-- C4 witness: a 5 MiB file is skipped even though its decode would raise
and the target is tiny. -/
theorem C4_small_files_skipped_w :
    process_one idTranspose wexNone 5242880 (.error "boom") samplePath
      sampleArgs = ("skip (≤19 MB)", file_size_mb 5242880, []) :=
  C4_small_files_skipped idTranspose wexNone 5242880 (.error "boom")
    samplePath sampleArgs (by decide)

/-- C5: an exception anywhere in the per-file body (decode, encode or write)
is caught at the per-file boundary and becomes an `"error: <message>"` label
with the original file size and no writes; the surrounding run still
produces one result per file, with every other file processed exactly as it
would be alone. -/
theorem C5_per_file_errors_isolated (transpose : Image → Image)
    (wex : FsPath → Content → Option String) (origSize : Nat)
    (decode : Except String Image) (path : FsPath) (args : Args) (e : String)
    (hbig : ¬ file_size_mb origSize ≤ 19)
    (herr : processBody transpose wex decode path args
      (file_size_mb origSize) = .error e) :
    process_one transpose wex origSize decode path args =
      ("error: " ++ e, file_size_mb origSize, []) ∧
    ∀ pre post : List FileEntry,
      runAll transpose wex args (pre ++ (⟨path, origSize, decode⟩ : FileEntry) :: post) =
        runAll transpose wex args pre ++
          ("error: " ++ e, file_size_mb origSize, []) ::
            runAll transpose wex args post := by
  have h1 := process_one_err transpose wex origSize decode path args e hbig herr
  refine ⟨h1, ?_⟩
  intro pre post
  unfold runAll
  rw [List.map_append, List.map_cons]
  dsimp only
  rw [h1]

/-- C5 witness: a failing decode on a large file is reported inline, and a
run with one healthy file on each side keeps both neighbours' results. -/
theorem C5_per_file_errors_isolated_w :
    process_one idTranspose wexNone 19922945 (.error "boom") samplePath
      sampleArgs = ("error: boom", file_size_mb 19922945, []) ∧
    runAll idTranspose wexNone sampleArgs
      ((⟨samplePath, 5, .error "x"⟩ : FileEntry) ::
        (⟨samplePath, 19922945, .error "boom"⟩ : FileEntry) ::
        [(⟨samplePath, 6, .error "y"⟩ : FileEntry)]) =
      runAll idTranspose wexNone sampleArgs
          [(⟨samplePath, 5, .error "x"⟩ : FileEntry)] ++
        ("error: boom", file_size_mb 19922945, []) ::
          runAll idTranspose wexNone sampleArgs
            [(⟨samplePath, 6, .error "y"⟩ : FileEntry)] := by
  have h := C5_per_file_errors_isolated idTranspose wexNone 19922945
    (.error "boom") samplePath sampleArgs "boom"
    (by with_unfolding_all decide) rfl
  exact ⟨h.1, h.2 [⟨samplePath, 5, .error "x"⟩] [⟨samplePath, 6, .error "y"⟩]⟩

/-- C6: in overwrite mode the output path is the original; otherwise it is a
sibling with `"_compressed"` appended to the stem, same directory and
extension, distinct from the original, and replaying all writes of
`process_one` leaves the original path's bytes unchanged. -/
theorem C6_output_placement (path : FsPath) (args : Args) :
    (args.overwrite = true → outPath path args.overwrite = path) ∧
    (args.overwrite = false →
      (outPath path args.overwrite).dir = path.dir ∧
      (outPath path args.overwrite).stem = path.stem ++ "_compressed" ∧
      (outPath path args.overwrite).suffix = path.suffix ∧
      outPath path args.overwrite ≠ path ∧
      ∀ (transpose : Image → Image) (wex : FsPath → Content → Option String)
        (origSize : Nat) (decode : Except String Image)
        (fs : FsPath → Content),
        applyWrites fs
          (process_one transpose wex origSize decode path args).2.2 path =
          fs path) := by
  constructor
  · intro h
    unfold outPath
    rw [h, if_pos rfl]
  · intro h
    rw [h]
    refine ⟨rfl, rfl, rfl, outPath_ne path, ?_⟩
    intro transpose wex origSize decode fs
    apply applyWrites_other (outPath path args.overwrite)
    · exact process_one_writes transpose wex origSize decode path args
    · rw [h]
      exact (outPath_ne path).symm

/-- C6 witness: with the sibling-output arguments, the output path differs
from the original and a PNG compression (which does write) leaves the bytes
stored at the original path unchanged. -/
theorem C6_output_placement_w :
    outPath samplePath false ≠ samplePath ∧
    applyWrites (fun _ => [9])
      (process_one idTranspose wexNone 19922945 (.ok imgPngStub) samplePath
        sampleArgs).2.2 samplePath =
      (fun (_ : FsPath) => [9]) samplePath := by
  have h := (C6_output_placement samplePath sampleArgs).2 rfl
  exact ⟨h.2.2.2.1,
    h.2.2.2.2 idTranspose wexNone 19922945 (.ok imgPngStub) (fun _ => [9])⟩

/-- C7: the binary search terminates: with `lo > hi` it exits immediately
returning the current best; each probe strictly shrinks the interval
measure; and fuel `loopFuel lo hi` (the interval length) is enough — any
larger fuel gives the same result. -/
theorem C7_search_terminates (img : Image) (target_mb : ℚ) (lo hi : Int)
    (best : Option (Content × Int)) :
    (hi < lo → ∀ fuel, jpegLoop img target_mb fuel lo hi best = .ok best) ∧
    (lo ≤ hi →
      loopFuel ((lo + hi) / 2 + 1) hi < loopFuel lo hi ∧
      loopFuel lo ((lo + hi) / 2 - 1) < loopFuel lo hi) ∧
    ∀ fuel, loopFuel lo hi ≤ fuel →
      jpegLoop img target_mb fuel lo hi best =
        jpegLoop img target_mb (loopFuel lo hi) lo hi best := by
  refine ⟨fun h fuel => jpegLoop_exit img target_mb lo hi best h fuel,
    fun h => ?_, fun fuel hf => ?_⟩
  · unfold loopFuel
    constructor <;> omega
  · exact jpegLoop_fuel_congr img target_mb (loopFuel lo hi) lo hi best fuel
      (loopFuel lo hi) rfl hf le_rfl

/-- C7 witness: on the interval `[85, 100]` the probe shrinks the measure
and fuel 999 gives the same result as the interval-length fuel. -/
theorem C7_search_terminates_w :
    loopFuel ((85 + 100) / 2 + 1) 100 < loopFuel 85 100 ∧
    jpegLoop imgMono (3 / 1048576) 999 85 100 none =
      jpegLoop imgMono (3 / 1048576) (loopFuel 85 100) 85 100 none :=
  ⟨((C7_search_terminates imgMono (3 / 1048576) 85 100 none).2.1
      (by decide)).1,
   (C7_search_terminates imgMono (3 / 1048576) 85 100 none).2.2 999
      (by decide)⟩

/-- C8: whenever an orientation tag is present, the EXIF block handed to
the encoder (always `strip_orientation` of the image's EXIF) carries
orientation value 1; and the format used for dispatch is the tag cached
before the transposition, whatever the transposition does to it. -/
theorem C8_orientation_reset (exif : Exif) (transpose : Image → Image)
    (img0 : Image) (h : (exif.lookup ORIENT).isSome = true) :
    (strip_orientation exif).lookup ORIENT = some 1 ∧
    (prepared transpose img0).format = img0.format ∧
    (((prepared transpose img0).exif.lookup ORIENT).isSome = true →
      (strip_orientation (prepared transpose img0).exif).lookup ORIENT =
        some 1) :=
  ⟨strip_orientation_lookup exif h, rfl,
   fun h' => strip_orientation_lookup _ h'⟩

/-- C8 witness: a concrete EXIF block with orientation 6 reads back as 1
after stripping, also through a transposition that clears the format tag. -/
theorem C8_orientation_reset_w :
    (strip_orientation [(ORIENT, 6), (5, 7)]).lookup ORIENT = some 1 ∧
    (prepared clearTranspose imgMono).format = imgMono.format ∧
    (((prepared clearTranspose imgMono).exif.lookup ORIENT).isSome = true →
      (strip_orientation (prepared clearTranspose imgMono).exif).lookup
        ORIENT = some 1) :=
  C8_orientation_reset [(ORIENT, 6), (5, 7)] clearTranspose imgMono
    (by decide)

/-- C9: `compress_png` performs the single encode, writes it, and reports
success exactly when the encoded size meets the target. -/
theorem C9_png_single_encode (wex : FsPath → Content → Option String)
    (img : Image) (out_path : FsPath) (target_mb : ℚ) (bytes : Content)
    (hE : img.encodePNG = .ok bytes) (hw : wex out_path bytes = none) :
    compress_png wex img out_path target_mb =
      .ok (decide (file_size_mb bytes.length ≤ target_mb),
           file_size_mb bytes.length, [(out_path, bytes)]) ∧
    ((decide (file_size_mb bytes.length ≤ target_mb) = true) ↔
      file_size_mb bytes.length ≤ target_mb) :=
  ⟨compress_png_eq wex img out_path target_mb bytes hE hw,
   decide_eq_true_iff⟩

/-- C9 witness: the PNG stub encodes once to 5 bytes; the result is written
and success is the comparison against the target. -/
theorem C9_png_single_encode_w :
    compress_png wexNone imgPngStub samplePath (3 / 1048576) =
      .ok (decide (file_size_mb
            (List.length ([0, 0, 0, 0, 0] : Content)) ≤ 3 / 1048576),
           file_size_mb (List.length ([0, 0, 0, 0, 0] : Content)),
           [(samplePath, [0, 0, 0, 0, 0])]) :=
  (C9_png_single_encode wexNone imgPngStub samplePath (3 / 1048576)
    [0, 0, 0, 0, 0] rfl rfl).1

/-- C10: `compress_png` writes before checking the target, so a failed PNG
compression still writes; in overwrite mode the original file's bytes are
replaced by the over-target encoding — unlike the JPEG path, which writes
nothing when its search fails entirely. -/
theorem C10_png_always_writes (transpose : Image → Image)
    (wex : FsPath → Content → Option String) (origSize : Nat) (img0 : Image)
    (path : FsPath) (args : Args) (bytes : Content)
    (hbig : ¬ file_size_mb origSize ≤ 19)
    (hfmt : img0.format = some "PNG")
    (hov : args.overwrite = true)
    (hE : (prepared transpose img0).encodePNG = .ok bytes)
    (hw : wex path bytes = none)
    (hfail : ¬ file_size_mb bytes.length ≤ args.target_mb) :
    process_one transpose wex origSize (.ok img0) path args =
      ("PNG ✗ (still big)", file_size_mb bytes.length, [(path, bytes)]) ∧
    (∀ fs : FsPath → Content,
      applyWrites fs
        (process_one transpose wex origSize (.ok img0) path args).2.2 path =
        bytes) ∧
    (∀ (wex2 : FsPath → Content → Option String) (img2 : Image)
        (out2 : FsPath) (sz : Int → Content),
      (∀ r, args.min_quality ≤ r → r ≤ 100 →
        img2.encodeJPEG r (strip_orientation img2.exif) img2.icc =
          .ok (sz r)) →
      (∀ r, args.min_quality ≤ r → r ≤ 100 →
        ¬ file_size_mb (sz r).length ≤ args.target_mb) →
      compress_jpeg wex2 img2 out2 args.target_mb args.min_quality 100 =
        .ok (false, none, none, [])) := by
  have hout : outPath path args.overwrite = path := by
    unfold outPath
    rw [hov, if_pos rfl]
  have hw' : wex (outPath path args.overwrite) bytes = none := by
    rw [hout]
    exact hw
  have hC := compress_png_eq wex (prepared transpose img0)
    (outPath path args.overwrite) args.target_mb bytes hE hw'
  have hP := process_one_png transpose wex origSize img0 path args
    (decide (file_size_mb bytes.length ≤ args.target_mb),
     file_size_mb bytes.length, [(outPath path args.overwrite, bytes)])
    hbig hfmt hC
  rw [decide_eq_false hfail, hout] at hP
  have hP' : process_one transpose wex origSize (.ok img0) path args =
      ("PNG ✗ (still big)", file_size_mb bytes.length, [(path, bytes)]) :=
    hP.trans rfl
  refine ⟨hP', ?_, ?_⟩
  · intro fs
    rw [hP']
    exact applyWrites_single fs path bytes
  · intro wex2 img2 out2 sz hsz hnofit
    exact compress_jpeg_of_loop_none wex2 img2 out2 args.target_mb
      args.min_quality 100
      (jpegLoop_nofit img2 args.target_mb sz
        (loopFuel args.min_quality 100) args.min_quality 100 none hsz hnofit)

/-- C10 witness: a 5-byte PNG encode misses the 3-byte target yet replaces
the original file's bytes in overwrite mode. -/
theorem C10_png_always_writes_w :
    process_one idTranspose wexNone 19922945 (.ok imgPngStub) samplePath
      sampleArgsOv =
      ("PNG ✗ (still big)",
       file_size_mb (List.length ([0, 0, 0, 0, 0] : Content)),
       [(samplePath, [0, 0, 0, 0, 0])]) ∧
    applyWrites (fun _ => [])
      (process_one idTranspose wexNone 19922945 (.ok imgPngStub) samplePath
        sampleArgsOv).2.2 samplePath = [0, 0, 0, 0, 0] := by
  have h := C10_png_always_writes idTranspose wexNone 19922945 imgPngStub
    samplePath sampleArgsOv [0, 0, 0, 0, 0]
    (by with_unfolding_all decide) rfl rfl rfl rfl
    (by with_unfolding_all decide)
  exact ⟨h.1, h.2.1 (fun _ => [])⟩
